import Mathlib

set_option maxRecDepth 40000

/-!
Verification of the record codec of the sns-sdk repository
(src/rust/src/record.rs): the `Record` kind registry, `get_record_size`,
`check_sol_record` and `deserialize_record`, together with models of the
external collaborators they call (the `bech32` crate, `hex` crate,
`ed25519_dalek` structural checks, `std::net` address parsing/formatting,
base58 key rendering and Rust string/UTF-8 primitives).

Bytes are modelled as `Nat` (with `< 256` hypotheses where u8 semantics
matter), Rust `String` as `List Char`, fallible calls as `Option`/`Except`,
and the two reachable `try_into().unwrap()` panics as an explicit
`RRes.panics` result.
-/

/-- The closed record-kind enumeration of src/rust/src/record.rs. -/
inductive Record where
  | Ipfs | Arwv | Sol | Eth | Btc | Ltc | Doge | Email | Url | Discord
  | Github | Reddit | Twitter | Telegram | Pic | Shdw | Point | Bsc
  | Injective | Backpack | A | AAAA | CNAME | TXT
deriving DecidableEq, Repr

/-- Modelled from the spec: the error enumeration `SnsError` lives in
error.rs, which is not under src/. Only the variants used by record.rs are
modelled: the two explicit constructors `InvalidReverse` and
`InvalidRecordData`, and one variant for each error type propagated by `?`
(UTF-8 decoding, the hex crate, the bech32 crate, ed25519_dalek). -/
inductive SnsError where
  | InvalidReverse | InvalidRecordData | Utf8 | Hex | Bech32 | Ed25519
deriving DecidableEq, Repr

/-- Result of running `deserialize_record`: a decoded string, a typed
error, or a Rust panic (from `try_into().unwrap()`). -/
inductive RRes where
  | ok (s : List Char)
  | err (e : SnsError)
  | panics
deriving DecidableEq, Repr

/-- Model of `solana_program::pubkey::Pubkey`: a 32-byte public key. -/
structure Pubkey where
  bytes : List Nat
  len32 : bytes.length = 32

/-- The function `get_record_size` from record.rs. -/
def get_record_size (record : Record) : Option Nat :=
  match record with
  | Record.Sol => some 96
  | Record.Eth | Record.Bsc | Record.Injective => some 20
  | Record.A => some 4
  | Record.AAAA => some 16
  | _ => none

/-- Model of `Iterator::rposition`: index of the last element satisfying `p`. -/
def rposition (p : Nat → Bool) (l : List Nat) : Option Nat :=
  match l.reverse.findIdx? p with
  | none => none
  | some i => some (l.length - 1 - i)

/-- The significant length computed by `deserialize_record`:
`data.iter().rposition(|&byte| byte != 0).map_or(0, |pos| pos + 1)`. -/
def sigLen (data : List Nat) : Nat :=
  match rposition (fun b => b != 0) data with
  | none => 0
  | some pos => pos + 1

/-- Is `b` a UTF-8 continuation byte (0x80..=0xBF)? -/
def utf8Cont (b : Nat) : Bool := 128 ≤ b && b ≤ 191

/-- Decode one UTF-8 scalar from `b :: rest` (strict UTF-8, RFC 3629:
rejects overlong forms, surrogates and values above U+10FFFF), returning
the character and the remaining bytes. -/
def utf8DecodeOne (b : Nat) (rest : List Nat) : Option (Char × List Nat) :=
  if b ≤ 127 then some (Char.ofNat b, rest)
  else if 194 ≤ b && b ≤ 223 then
    match rest with
    | b2 :: rest2 =>
      if utf8Cont b2 then
        some (Char.ofNat (((b - 192) <<< 6) + (b2 - 128)), rest2)
      else none
    | [] => none
  else if b = 224 then
    match rest with
    | b2 :: b3 :: rest3 =>
      if (160 ≤ b2 && b2 ≤ 191) && utf8Cont b3 then
        some (Char.ofNat (((b - 224) <<< 12) + ((b2 - 128) <<< 6) + (b3 - 128)), rest3)
      else none
    | _ => none
  else if (225 ≤ b && b ≤ 236) || (238 ≤ b && b ≤ 239) then
    match rest with
    | b2 :: b3 :: rest3 =>
      if utf8Cont b2 && utf8Cont b3 then
        some (Char.ofNat (((b - 224) <<< 12) + ((b2 - 128) <<< 6) + (b3 - 128)), rest3)
      else none
    | _ => none
  else if b = 237 then
    match rest with
    | b2 :: b3 :: rest3 =>
      if (128 ≤ b2 && b2 ≤ 159) && utf8Cont b3 then
        some (Char.ofNat (((b - 224) <<< 12) + ((b2 - 128) <<< 6) + (b3 - 128)), rest3)
      else none
    | _ => none
  else if b = 240 then
    match rest with
    | b2 :: b3 :: b4 :: rest4 =>
      if ((144 ≤ b2 && b2 ≤ 191) && utf8Cont b3) && utf8Cont b4 then
        some (Char.ofNat (((b - 240) <<< 18) + ((b2 - 128) <<< 12) +
          ((b3 - 128) <<< 6) + (b4 - 128)), rest4)
      else none
    | _ => none
  else if 241 ≤ b && b ≤ 243 then
    match rest with
    | b2 :: b3 :: b4 :: rest4 =>
      if (utf8Cont b2 && utf8Cont b3) && utf8Cont b4 then
        some (Char.ofNat (((b - 240) <<< 18) + ((b2 - 128) <<< 12) +
          ((b3 - 128) <<< 6) + (b4 - 128)), rest4)
      else none
    | _ => none
  else if b = 244 then
    match rest with
    | b2 :: b3 :: b4 :: rest4 =>
      if ((128 ≤ b2 && b2 ≤ 143) && utf8Cont b3) && utf8Cont b4 then
        some (Char.ofNat (((b - 240) <<< 18) + ((b2 - 128) <<< 12) +
          ((b3 - 128) <<< 6) + (b4 - 128)), rest4)
      else none
    | _ => none
  else none

/-- Scalar-by-scalar UTF-8 decoding loop; each step consumes at least one
byte, so fuel equal to the byte count always suffices. -/
def utf8Run : Nat → List Nat → Option (List Char)
  | _, [] => some []
  | 0, _ :: _ => none
  | f + 1, b :: rest =>
    match utf8DecodeOne b rest with
    | none => none
    | some (c, rest2) => (utf8Run f rest2).map (fun s => c :: s)

/-- Model of Rust `String::from_utf8` (strict UTF-8), returning the
decoded characters. -/
def utf8Decode (l : List Nat) : Option (List Char) := utf8Run l.length l

/-- The NUL character trimmed by `trim_end_matches('\0')`. -/
def nulChar : Char := Char.ofNat 0

/-- Model of `str::trim_end_matches('\0')`. -/
def trimEndZeros (s : List Char) : List Char :=
  (s.reverse.dropWhile (fun c => c == nulChar)).reverse

/-- Number of bytes of the UTF-8 encoding of a character. -/
def utf8CharLen (c : Char) : Nat :=
  if c.toNat < 128 then 1
  else if c.toNat < 2048 then 2
  else if c.toNat < 65536 then 3
  else 4

/-- Model of Rust `str::get(0..n)` (byte-indexed, char-boundary checked):
the characters making up the first `n` bytes, or `none` when `n` is not a
character boundary or exceeds the byte length. -/
def strGetTo : List Char → Nat → Option (List Char)
  | _, 0 => some []
  | [], _ + 1 => none
  | c :: rest, n + 1 =>
    if utf8CharLen c ≤ n + 1 then
      (strGetTo rest (n + 1 - utf8CharLen c)).map (fun l => c :: l)
    else none

/-- Model of Rust `str::get(n..)`: the characters after the first `n`
bytes, or `none` when `n` is not a character boundary. -/
def strGetFrom : List Char → Nat → Option (List Char)
  | s, 0 => some s
  | [], _ + 1 => none
  | c :: rest, n + 1 =>
    if utf8CharLen c ≤ n + 1 then strGetFrom rest (n + 1 - utf8CharLen c)
    else none

/-- Lowercase hexadecimal digit characters. -/
def hexDigitChar (n : Nat) : Char := ("0123456789abcdef".toList).getD n '0'

/-- Model of `hex::encode`: lowercase hex, two digits per byte. -/
def hexEncode (l : List Nat) : List Char :=
  match l with
  | [] => []
  | b :: rest => hexDigitChar ((b >>> 4) &&& 15) :: hexDigitChar (b &&& 15) :: hexEncode rest

/-- Value of one hexadecimal digit character (either case). -/
def hexVal (c : Char) : Option Nat :=
  if 48 ≤ c.toNat && c.toNat ≤ 57 then some (c.toNat - 48)
  else if 97 ≤ c.toNat && c.toNat ≤ 102 then some (c.toNat - 87)
  else if 65 ≤ c.toNat && c.toNat ≤ 70 then some (c.toNat - 55)
  else none

/-- Model of `hex::decode`: fails on odd length or a non-hex character. -/
def hexDecode : List Char → Option (List Nat)
  | [] => some []
  | [_] => none
  | c1 :: c2 :: rest =>
    match hexVal c1, hexVal c2, hexDecode rest with
    | some h, some l, some bs => some (((h <<< 4) + l) :: bs)
    | _, _, _ => none

/-- The base58 alphabet used by `Pubkey::to_string`. -/
def b58Alphabet : List Char :=
  "123456789ABCDEFGHJKLMNPQRSTUVWXYZabcdefghijkmnopqrstuvwxyz".toList

/-- Big-endian value of a byte string. -/
def natOfBytes (l : List Nat) : Nat := l.foldl (fun a b => a * 256 + b) 0

/-- Base58 digits of `n`, most significant first (`f` is fuel). -/
def b58Go : Nat → Nat → List Char
  | 0, _ => []
  | f + 1, n =>
    if n = 0 then []
    else b58Go f (n / 58) ++ [b58Alphabet.getD (n % 58) '1']

/-- Model of base58check-less base58 rendering as used by
`Pubkey::to_string`: each leading zero byte becomes '1', the remaining
value is written in base 58. -/
def bs58Encode (l : List Nat) : List Char :=
  List.replicate ((l.takeWhile (fun b => b == 0)).length) '1' ++
    b58Go (8 * l.length + 1) (natOfBytes l)

/-- Canonical rendering of a public key (`Pubkey::to_string`). -/
def Pubkey.render (k : Pubkey) : List Char := bs58Encode k.bytes

/-- The abstract part of ed25519_dalek that a shallow embedding cannot
compute: whether 32 bytes decompress to a curve point
(`PublicKey::from_bytes`), and the boolean outcome of
`verify_strict(message, signature)` on a parsed key. Everything dalek
checks structurally (lengths, the scalar-encoding test of
`Signature::from_bytes`) is embedded concretely in `check_sol_record`. -/
structure Ed where
  validPoint : List Nat → Bool
  verifyStrict : List Nat → List Nat → List Nat → Bool

/-- The function `check_sol_record` from record.rs:
`PublicKey::from_bytes(&pubkey.to_bytes())?` (length 32 plus point
decompression), `Signature::from_bytes(signed_record)?` (length 64 plus
`upper[31] & 224 == 0`, the dalek v1 scalar-encoding check), then
`key.verify_strict(record, &sig).is_ok()`. -/
def check_sol_record (E : Ed) (record signed : List Nat) (pubkey : Pubkey) :
    Except SnsError Bool :=
  if (pubkey.bytes.length == 32) && E.validPoint pubkey.bytes then
    if (signed.length == 64) && (((signed.getD 63 0) &&& 224) == 0) then
      Except.ok (E.verifyStrict pubkey.bytes record signed)
    else Except.error SnsError.Ed25519
  else Except.error SnsError.Ed25519

/-- Decimal digits of one number read greedily, as `Parser::read_number`
(radix 10, no zero prefix, target u8) for an IPv4 octet: at least one
digit, no leading zero on a multi-digit group, value at most 255. Returns
the rest of the input on success. -/
def readNum10 (s : List Char) : Option (List Char) :=
  let ds := s.takeWhile Char.isDigit
  if ds.length = 0 then none
  else if 1 < ds.length && (ds.headD '1' == '0') then none
  else if 255 < ds.foldl (fun a c => 10 * a + (c.toNat - 48)) 0 then none
  else some (s.dropWhile Char.isDigit)

/-- Read one given character. -/
def readCh (c : Char) (s : List Char) : Option (List Char) :=
  match s with
  | a :: r => if a == c then some r else none
  | [] => none

/-- Model of `Parser::read_ipv4_addr`: four dot-separated octets. -/
def readIpv4 (s : List Char) : Option (List Char) := do
  let r1 ← readNum10 s
  let r2 ← readCh '.' r1
  let r3 ← readNum10 r2
  let r4 ← readCh '.' r3
  let r5 ← readNum10 r4
  let r6 ← readCh '.' r5
  readNum10 r6

/-- Model of `"...".parse::<Ipv4Addr>().is_ok()` (whole input consumed). -/
def ipv4Parse (s : List Char) : Bool := readIpv4 s == some []

/-- Is `c` a hexadecimal digit character? -/
def isHexDig (c : Char) : Bool :=
  c.isDigit || (decide (97 ≤ c.toNat) && decide (c.toNat ≤ 102)) ||
    (decide (65 ≤ c.toNat) && decide (c.toNat ≤ 70))

/-- One IPv6 group: 1 to 4 hex digits (`read_number(16, Some(4), true)`). -/
def readHexGroup (s : List Char) : Option (List Char) :=
  let ds := s.takeWhile isHexDig
  if ds.length = 0 || 4 < ds.length then none
  else some (s.dropWhile isHexDig)

/-- Model of `Parser::read_separator`: a ':' is required before every group except
the first of the current run; the whole read is atomic. -/
def readSep (i : Nat) (reader : List Char → Option (List Char))
    (s : List Char) : Option (List Char) :=
  if i = 0 then reader s
  else
    match s with
    | ':' :: r => reader r
    | _ => none

/-- Model of the `read_groups` loop inside `Parser::read_ipv6_addr`:
reads up to `rem` colon-separated groups starting at run index `i`,
trying a trailing embedded IPv4 address whenever at least two group slots
remain. Returns (groups read, whether an IPv4 part ended the run, rest). -/
def readGroups : Nat → Nat → List Char → Nat × Bool × List Char
  | 0, _, s => (0, false, s)
  | rem + 1, i, s =>
    match (if 1 ≤ rem then readSep i readIpv4 s else none) with
    | some rest => (2, true, rest)
    | none =>
      match readSep i readHexGroup s with
      | some rest =>
        let (n, b, r) := readGroups rem (i + 1) rest
        (n + 1, b, r)
      | none => (0, false, s)

/-- Model of `Parser::read_ipv6_addr`: a head run of groups; if fewer than
8, an IPv4 part may not end the head, a literal `::` follows, then a tail
run of at most `8 - (head + 1)` groups. -/
def readIpv6 (s : List Char) : Option (List Char) :=
  match readGroups 8 0 s with
  | (h, hv4, s1) =>
    if h = 8 then some s1
    else if hv4 then none
    else
      match s1 with
      | ':' :: ':' :: s2 =>
        match readGroups (8 - (h + 1)) 0 s2 with
        | (_, _, s3) => some s3
      | _ => none

/-- Model of `"...".parse::<Ipv6Addr>().is_ok()` (whole input consumed). -/
def ipv6Parse (s : List Char) : Bool := readIpv6 s == some []

/-- Dotted-decimal rendering of four octets (`Ipv4Addr` Display). -/
def ipv4DisplayFrom (a b c d : Nat) : List Char :=
  Nat.toDigits 10 a ++ '.' :: Nat.toDigits 10 b ++ '.' :: Nat.toDigits 10 c ++
    '.' :: Nat.toDigits 10 d

/-- Model of `Ipv4Addr::from(bytes).to_string()`. -/
def ipv4Display (bytes : List Nat) : List Char :=
  ipv4DisplayFrom (bytes.getD 0 0) (bytes.getD 1 0) (bytes.getD 2 0) (bytes.getD 3 0)

/-- The eight big-endian 16-bit segments of a 16-byte IPv6 address. -/
def ipv6Segs (bytes : List Nat) : List Nat :=
  (List.range 8).map (fun i => 256 * bytes.getD (2 * i) 0 + bytes.getD (2 * i + 1) 0)

/-- Lowercase hex digits of `n` without leading zeros (`f` is fuel). -/
def hexGo : Nat → Nat → List Char
  | 0, _ => []
  | f + 1, n => if n = 0 then [] else hexGo f (n / 16) ++ [hexDigitChar (n % 16)]

/-- One IPv6 segment as lowercase hex. -/
def hexSeg (n : Nat) : List Char := if n = 0 then ['0'] else hexGo n n

/-- First longest run of zero segments (start, length), as computed by the
Display implementation of `Ipv6Addr`. -/
def longestZeroRun (segs : List Nat) : Nat × Nat :=
  let step := fun (st : (Nat × Nat) × (Nat × Nat) × Nat) (s : Nat) =>
    match st with
    | ((bs, bl), (cs, cl), i) =>
      if s = 0 then
        let cs2 := if cl = 0 then i else cs
        let cl2 := cl + 1
        if bl < cl2 then ((cs2, cl2), (cs2, cl2), i + 1)
        else ((bs, bl), (cs2, cl2), i + 1)
      else ((bs, bl), (0, 0), i + 1)
  match segs.foldl step ((0, 0), (0, 0), 0) with
  | ((bs, bl), _, _) => (bs, bl)

/-- Model of `Ipv6Addr::from(bytes).to_string()`: the unspecified address,
the loopback, IPv4-mapped addresses, then the general form with the first
longest zero run of length at least 2 compressed to `::`. -/
def ipv6Display (bytes : List Nat) : List Char :=
  let s := ipv6Segs bytes
  if s = [0, 0, 0, 0, 0, 0, 0, 0] then ("::".toList)
  else if s = [0, 0, 0, 0, 0, 0, 0, 1] then ("::1".toList)
  else if s.take 6 = [0, 0, 0, 0, 0, 65535] then
    ("::ffff:".toList) ++
      ipv4DisplayFrom (bytes.getD 12 0) (bytes.getD 13 0) (bytes.getD 14 0)
        (bytes.getD 15 0)
  else
    match longestZeroRun s with
    | (st, ln) =>
      if 1 < ln then
        List.intercalate [':'] ((s.take st).map hexSeg) ++ "::".toList ++
          List.intercalate [':'] ((s.drop (st + ln)).map hexSeg)
      else List.intercalate [':'] (s.map hexSeg)

/-- The bech32 data-character set. -/
def CHARSET : List Char := "qpzry9x8gf2tvdw0s3jn54khce6mua7l".toList

/-- Character for one 5-bit value. -/
def charsetGet (d : Nat) : Char := CHARSET.getD d 'q'

/-- Model of the crate's `CHARSET_REV` table: the index of the character
(case-insensitively) in the charset, if any. -/
def charsetRev (c : Char) : Option Nat :=
  let i := CHARSET.indexOf c.toLower
  if i < 32 then some i else none

/-- One step of the bech32 checksum LFSR (`polymod_step`). -/
def bech32Step (chk v : Nat) : Nat :=
  (((chk &&& 33554431) <<< 5) ^^^ v) ^^^
    ((if Nat.testBit (chk >>> 25) 0 then 996825010 else 0) ^^^
     ((if Nat.testBit (chk >>> 25) 1 then 642813549 else 0) ^^^
      ((if Nat.testBit (chk >>> 25) 2 then 513874426 else 0) ^^^
       ((if Nat.testBit (chk >>> 25) 3 then 1027748829 else 0) ^^^
        (if Nat.testBit (chk >>> 25) 4 then 705979059 else 0)))))

/-- Checksum state after absorbing `l` starting from `c`. -/
def bech32PolymodFrom (c : Nat) (l : List Nat) : Nat := l.foldl bech32Step c

/-- The `polymod` value of a list (initial state 1). -/
def bech32Polymod (l : List Nat) : Nat := bech32PolymodFrom 1 l

/-- Model of `hrp_expand`: high 3 bits of each hrp byte, a zero, then the low
5 bits of each hrp byte. -/
def bech32HrpExpand (hrp : List Char) : List Nat :=
  hrp.map (fun c => c.toNat >>> 5) ++ [0] ++ hrp.map (fun c => c.toNat &&& 31)

/-- The two bech32 checksum variants. -/
inductive Bech32Variant where
  | bech32 | bech32m
deriving DecidableEq, Repr

/-- Checksum constant of a variant. -/
def bech32Const (v : Bech32Variant) : Nat :=
  match v with
  | Bech32Variant.bech32 => 1
  | Bech32Variant.bech32m => 734539939

/-- The six checksum symbols appended by `Bech32Writer::finalize`. -/
def bech32CreateChecksum (hrp : List Char) (data : List Nat)
    (v : Bech32Variant) : List Nat :=
  let pm := bech32Polymod (bech32HrpExpand hrp ++ data ++ [0, 0, 0, 0, 0, 0]) ^^^
    bech32Const v
  [(pm >>> 25) &&& 31, (pm >>> 20) &&& 31, (pm >>> 15) &&& 31,
   (pm >>> 10) &&& 31, (pm >>> 5) &&& 31, pm &&& 31]

/-- Model of `check_hrp`: between 1 and 83 characters, each in the visible ASCII
range 33..=126, and not mixing upper and lower case. -/
def bech32CheckHrp (hrp : List Char) : Bool :=
  (decide (1 ≤ hrp.length) && decide (hrp.length ≤ 83)) &&
    (hrp.all (fun c => decide (33 ≤ c.toNat) && decide (c.toNat ≤ 126)) &&
      !(hrp.any Char.isUpper && hrp.any Char.isLower))

/-- Model of `bech32::encode(hrp, data, variant)`: hrp (lowercased), the
separator '1', the data characters, then six checksum characters. Fails
(as the crate does) when the hrp is invalid. -/
def bech32Encode (hrp : List Char) (data : List Nat) (v : Bech32Variant) :
    Option (List Char) :=
  if bech32CheckHrp hrp then
    let hrpl := hrp.map Char.toLower
    some (hrpl ++ '1' :: (data.map charsetGet ++
      (bech32CreateChecksum hrpl data v).map charsetGet))
  else none

/-- Split a list at the last occurrence of `c` (`str::rsplit_once`). -/
def rsplitLast (c : Char) : List Char → Option (List Char × List Char)
  | [] => none
  | a :: rest =>
    match rsplitLast c rest with
    | some (x, y) => some (a :: x, y)
    | none => if a == c then some ([], rest) else none

/-- Model of `bech32::decode`: rejects mixed case, splits at the last
'1', validates the hrp, maps data characters through the charset table,
requires at least six payload symbols, verifies the checksum (identifying
the variant by its constant), and returns the lowercased hrp and the
payload without its six checksum symbols. All crate errors collapse to
`none`. -/
def bech32Decode (s : List Char) : Option (List Char × List Nat × Bech32Variant) :=
  if s.any Char.isUpper && s.any Char.isLower then none
  else
    match rsplitLast '1' s with
    | none => none
    | some (hrp, dataPart) =>
      if (decide (1 ≤ hrp.length) && decide (hrp.length ≤ 83)) &&
          hrp.all (fun c => decide (33 ≤ c.toNat) && decide (c.toNat ≤ 126)) then
        let hrpl := hrp.map Char.toLower
        match dataPart.mapM charsetRev with
        | none => none
        | some payload =>
          if payload.length < 6 then none
          else
            let pm := bech32Polymod (bech32HrpExpand hrpl ++ payload)
            if pm = 1 then
              some (hrpl, payload.take (payload.length - 6), Bech32Variant.bech32)
            else if pm = 734539939 then
              some (hrpl, payload.take (payload.length - 6), Bech32Variant.bech32m)
            else none
      else none

/-- The `w` bits of `n`, most significant first. -/
def natBits (w n : Nat) : List Bool :=
  (List.range w).map (fun i => n.testBit (w - 1 - i))

/-- Big-endian value of a bit list. -/
def bitsToNat (l : List Bool) : Nat :=
  l.foldl (fun a b => 2 * a + (if b then 1 else 0)) 0

/-- The bit stream of a byte string, 8 bits per byte, MSB first. -/
def bytesToBits : List Nat → List Bool
  | [] => []
  | b :: rest => natBits 8 b ++ bytesToBits rest

/-- The bit stream of a 5-bit-group string, 5 bits per group, MSB first. -/
def u5sToBits : List Nat → List Bool
  | [] => []
  | b :: rest => natBits 5 b ++ u5sToBits rest

/-- Split a bit stream into 5-bit chunks, zero-padding the last chunk. -/
def chunks5 : List Bool → List (List Bool)
  | [] => []
  | a :: b :: c :: d :: e :: rest => [a, b, c, d, e] :: chunks5 rest
  | [a] => [[a, false, false, false, false]]
  | [a, b] => [[a, b, false, false, false]]
  | [a, b, c] => [[a, b, c, false, false]]
  | [a, b, c, d] => [[a, b, c, d, false]]

/-- Split a bit stream into 8-bit chunks, zero-padding the last chunk. -/
def chunks8 : List Bool → List (List Bool)
  | [] => []
  | a :: b :: c :: d :: e :: f :: g :: h :: rest =>
    [a, b, c, d, e, f, g, h] :: chunks8 rest
  | [a] => [[a, false, false, false, false, false, false, false]]
  | [a, b] => [[a, b, false, false, false, false, false, false]]
  | [a, b, c] => [[a, b, c, false, false, false, false, false]]
  | [a, b, c, d] => [[a, b, c, d, false, false, false, false]]
  | [a, b, c, d, e] => [[a, b, c, d, e, false, false, false]]
  | [a, b, c, d, e, f] => [[a, b, c, d, e, f, false, false]]
  | [a, b, c, d, e, f, g] => [[a, b, c, d, e, f, g, false]]

/-- Model of `ToBase32` for byte slices: regroup the MSB-first bit stream
into 5-bit values, zero-padding the final group. -/
def toBase32 (bytes : List Nat) : List Nat :=
  (chunks5 (bytesToBits bytes)).map bitsToNat

/-- Model of `FromBase32` for byte targets on inputs whose bit length is
an exact multiple of 8: regroup the 5-bit values back into bytes. -/
def fromBase32Exact (u5s : List Nat) : List Nat :=
  (chunks8 (u5sToBits u5s)).map bitsToNat

/-- The legacy ("old record UTF-8 encoded") branch of `deserialize_record`
(record.rs lines 112-144): decode `data[0..idx]` as UTF-8, then run the
kind's validation; `?`-propagated decoder failures keep their own error,
every other validation failure is `InvalidReverse`. -/
def deserializeLegacy (data : List Nat) (idx : Nat) (record : Record) : RRes :=
  match utf8Decode (data.take idx) with
  | none => RRes.err SnsError.Utf8
  | some address =>
    match record with
    | Record.Injective =>
      match bech32Decode address with
      | none => RRes.err SnsError.Bech32
      | some (hrp, d, _) =>
        if hrp = "inj".toList ∧ d.length = 32 then RRes.ok address
        else RRes.err SnsError.InvalidReverse
    | Record.Eth | Record.Bsc =>
      match strGetTo address 2 with
      | none => RRes.err SnsError.InvalidRecordData
      | some pre =>
        match strGetFrom address 2 with
        | none => RRes.err SnsError.InvalidRecordData
        | some hexPart =>
          match hexDecode hexPart with
          | none => RRes.err SnsError.Hex
          | some decoded =>
            if pre = "0x".toList ∧ decoded.length = 20 then RRes.ok address
            else RRes.err SnsError.InvalidReverse
    | Record.A =>
      if ipv4Parse address then RRes.ok address
      else RRes.err SnsError.InvalidReverse
    | Record.AAAA =>
      if ipv6Parse address then RRes.ok address
      else RRes.err SnsError.InvalidReverse
    | _ => RRes.err SnsError.InvalidReverse

/-- The native ("properly sized record") branch of `deserialize_record`
(record.rs lines 146-179). The `try_into().unwrap()` calls of the A and
AAAA arms become panics when the full buffer length differs from the
array size; the Sol arm's unwrap is on `data.get(0..32)`, whose length is
forced. A `false` verification result falls through to the final
`Err(SnsError::InvalidRecordData)`. -/
def deserializeNative (E : Ed) (data : List Nat) (record : Record)
    (record_key : Pubkey) : RRes :=
  match record with
  | Record.Sol =>
    if 32 ≤ data.length then
      let signature := data.drop 32
      let dst := data.take 32
      let expected := dst ++ record_key.bytes
      match check_sol_record E expected signature record_key with
      | Except.error e => RRes.err e
      | Except.ok true =>
        if dst.length = 32 then RRes.ok (bs58Encode dst) else RRes.panics
      | Except.ok false => RRes.err SnsError.InvalidRecordData
    else RRes.err SnsError.InvalidRecordData
  | Record.Eth | Record.Bsc => RRes.ok ("0x".toList ++ hexEncode data)
  | Record.Injective =>
    match bech32Encode ("inj".toList) (toBase32 data) Bech32Variant.bech32 with
    | none => RRes.err SnsError.Bech32
    | some s => RRes.ok s
  | Record.A =>
    if data.length = 4 then RRes.ok (ipv4Display data) else RRes.panics
  | Record.AAAA =>
    if data.length = 16 then RRes.ok (ipv6Display data) else RRes.panics
  | _ => RRes.err SnsError.InvalidRecordData

/-- The function `deserialize_record` from record.rs: text kinds decode as UTF-8 with
trailing NULs trimmed; fixed-size kinds compare the significant length
with the expected size to choose the legacy or the native branch. -/
def deserialize_record (E : Ed) (data : List Nat) (record : Record)
    (record_key : Pubkey) : RRes :=
  match get_record_size record with
  | none =>
    match utf8Decode data with
    | none => RRes.err SnsError.Utf8
    | some s => RRes.ok (trimEndZeros s)
  | some size =>
    let idx := sigLen data
    if size ≠ idx then deserializeLegacy data idx record
    else deserializeNative E data record record_key

/-- An ed25519 instance whose abstract parts accept every point and
reject every signature. -/
def edZero : Ed := ⟨fun _ => true, fun _ _ _ => false⟩

/-- An ed25519 instance modelling a signature produced by the holder of
the key 2,2,...,2: by ed25519 semantics it verifies exactly when checked
against that key. -/
def edStorageSigner : Ed :=
  ⟨fun _ => true, fun pk _ _ => pk == List.replicate 32 2⟩

/-- The all-zero public key. -/
def pkZero : Pubkey := ⟨List.replicate 32 0, by simp⟩

/-- The public key 2,2,...,2. -/
def pkTwo : Pubkey := ⟨List.replicate 32 2, by simp⟩

/-- An ed25519 instance modelling a signature produced by the holder of
the destination key 0,0,...,0 stored in the record: it verifies exactly
when checked against that key. -/
def edDstSigner : Ed :=
  ⟨fun _ => true, fun pk _ _ => pk == List.replicate 32 0⟩

/-- Claim C9: `get_record_size` is the pure total table Sol ↦ 96,
Eth/Bsc/Injective ↦ 20, A ↦ 4, AAAA ↦ 16, and `none` for every other
kind. -/
theorem record_size_table :
    get_record_size Record.Sol = some 96 ∧ get_record_size Record.Eth = some 20 ∧
    get_record_size Record.Bsc = some 20 ∧ get_record_size Record.Injective = some 20 ∧
    get_record_size Record.A = some 4 ∧ get_record_size Record.AAAA = some 16 ∧
    ∀ r : Record, (get_record_size r = none ↔
      r ∉ [Record.Sol, Record.Eth, Record.Bsc, Record.Injective, Record.A,
        Record.AAAA]) := by
  refine ⟨rfl, rfl, rfl, rfl, rfl, rfl, fun r => ?_⟩
  cases r <;> decide

/-- Claim C10: `deserialize_record` panics on an A record buffer longer
than 4 bytes whose significant length is exactly 4 (here [127,0,0,1,0]),
and on an AAAA buffer longer than 16 bytes with significant length 16:
the native path runs `try_into().unwrap()` on the full, wrongly sized
buffer. -/
theorem native_path_panics :
    deserialize_record edZero [127, 0, 0, 1, 0] Record.A pkZero = RRes.panics ∧
    deserialize_record edZero (List.replicate 15 0 ++ [1, 0]) Record.AAAA pkZero =
      RRes.panics := by
  decide

/-- Claim C2 (counterexample): decoding 20 zero bytes as a hex-address
kind does not return the all-zero hex string. -/
theorem eth_zero_bytes_counterex :
    deserialize_record edZero (List.replicate 20 0) Record.Eth pkZero ≠
      RRes.ok ("0x0000000000000000000000000000000000000000".toList) := by
  decide

/-- Claim C2 (amended): 20 zero bytes have significant length 0, so the
hex-address kinds take the legacy path, where the empty decoded string
fails the `get(0..2)` slice and the call returns `InvalidRecordData`; a
20-byte buffer whose last byte is nonzero is decoded natively to its
0x-prefixed hex form. -/
theorem eth_zero_bytes_legacy_error :
    deserialize_record edZero (List.replicate 20 0) Record.Eth pkZero =
      RRes.err SnsError.InvalidRecordData ∧
    deserialize_record edZero (List.replicate 20 0) Record.Bsc pkZero =
      RRes.err SnsError.InvalidRecordData ∧
    deserialize_record edZero (List.replicate 19 0 ++ [1]) Record.Eth pkZero =
      RRes.ok ("0x0000000000000000000000000000000000000001".toList) := by
  decide

/-- Claim C3 (counterexample): decoding 16 zero bytes as AAAA does not
return "::". -/
theorem aaaa_zero_bytes_counterex :
    deserialize_record edZero (List.replicate 16 0) Record.AAAA pkZero ≠
      RRes.ok ("::".toList) := by
  decide

/-- Claim C3 (amended): 16 zero bytes have significant length 0, so AAAA
takes the legacy path, where the empty string fails IPv6 validation and
the call returns `InvalidReverse`; a 16-byte buffer whose last byte is 1
is decoded natively to "::1". -/
theorem aaaa_zero_bytes_invalid_reverse :
    deserialize_record edZero (List.replicate 16 0) Record.AAAA pkZero =
      RRes.err SnsError.InvalidReverse ∧
    deserialize_record edZero (List.replicate 15 0 ++ [1]) Record.AAAA pkZero =
      RRes.ok ("::1".toList) := by
  decide

/-- Claim C1 (code bug): on the native Sol path the code passes
`*record_key` — the storage key — to `check_sol_record` as the ed25519
public key, not `dst`. With a 96-byte payload `dst = 0^32`,
`sig = 0^63 ++ [1]` stored at the key 2^32: a signature that verifies
only against the storage key (edStorageSigner) makes decoding succeed
with the base58 form of dst, and a signature that verifies only against
dst (edDstSigner) makes decoding fail — the exact opposite of the claimed
behaviour. -/
theorem sol_record_storage_key_signer_decodes :
    deserialize_record edStorageSigner
      (List.replicate 32 0 ++ (List.replicate 63 0 ++ [1])) Record.Sol pkTwo =
      RRes.ok (List.replicate 32 '1') ∧
    bs58Encode (List.replicate 32 0) = List.replicate 32 '1' ∧
    deserialize_record edDstSigner
      (List.replicate 32 0 ++ (List.replicate 63 0 ++ [1])) Record.Sol pkTwo =
      RRes.err SnsError.InvalidRecordData := by
  decide

/-- Claim C5: `check_sol_record` returns the `Ed25519` error exactly when
the public key fails point decompression or the signature bytes fail the
structural checks of `Signature::from_bytes` (length 64 and a canonical
scalar encoding: top three bits of the last byte clear), and on
well-formed inputs returns `Ok` of the `verify_strict` outcome — a
wrong-but-well-formed signature is `Ok false`, never an error, and no
branch panics. -/
theorem check_sol_record_channels (E : Ed) (record signed : List Nat) (pk : Pubkey) :
    (check_sol_record E record signed pk = Except.error SnsError.Ed25519 ↔
      ¬(E.validPoint pk.bytes = true ∧ signed.length = 64 ∧
        (signed.getD 63 0) &&& 224 = 0)) ∧
    (check_sol_record E record signed pk =
        Except.ok (E.verifyStrict pk.bytes record signed) ↔
      (E.validPoint pk.bytes = true ∧ signed.length = 64 ∧
        (signed.getD 63 0) &&& 224 = 0)) := by
  have h32 : pk.bytes.length = 32 := pk.len32
  unfold check_sol_record
  by_cases hv : E.validPoint pk.bytes = true <;>
    by_cases hl : signed.length = 64 <;>
    by_cases hb : (signed.getD 63 0) &&& 224 = 0 <;>
    simp [h32, hv, hl, hb]

lemma sigLen_nil : sigLen [] = 0 := rfl

lemma sigLen_concat_ne (l : List Nat) (b : Nat) (hb : b ≠ 0) :
    sigLen (l ++ [b]) = l.length + 1 := by
  unfold sigLen rposition
  have hb2 : (b != 0) = true := by simpa using hb
  simp [List.reverse_append, List.findIdx?_cons, hb2]

lemma sigLen_replicate_zero (n : Nat) : sigLen (List.replicate n 0) = 0 := by
  unfold sigLen rposition
  have h : ∀ m : Nat, List.findIdx? (fun b => b != 0) (List.replicate m (0 : Nat)) = none := by
    intro m
    induction m with
    | zero => rfl
    | succ k ih =>
      rw [List.replicate_succ]
      simp only [List.findIdx?_cons]
      simp [List.findIdx?_succ, ih]
  simp [List.reverse_replicate, h n]

lemma sigLen_eq_length (data : List Nat)
    (hlast : ∀ b, data.getLast? = some b → b ≠ 0) :
    sigLen data = data.length := by
  rcases List.eq_nil_or_concat data with h | ⟨L, b, h⟩
  · subst h; rfl
  · subst h
    rw [List.concat_eq_append] at *
    have hb : b ≠ 0 := hlast b (List.getLast?_concat L)
    rw [sigLen_concat_ne L b hb]
    simp

/-- Claim C7: for a fixed-size kind the legacy branch is taken exactly
when the significant (trailing-zero-stripped) length differs from the
expected size; in particular a buffer with no trailing zero bytes that is
shorter than the expected size always takes the legacy branch, and an
empty or all-zero buffer has significant length 0. -/
theorem legacy_path_dispatch (E : Ed) (data : List Nat) (kind : Record)
    (key : Pubkey) (size n : Nat)
    (hsize : get_record_size kind = some size) :
    (sigLen data ≠ size →
      deserialize_record E data kind key = deserializeLegacy data (sigLen data) kind) ∧
    (sigLen data = size →
      deserialize_record E data kind key = deserializeNative E data kind key) ∧
    ((∀ b, data.getLast? = some b → b ≠ 0) → data.length < size →
      sigLen data = data.length ∧ sigLen data ≠ size ∧
      deserialize_record E data kind key = deserializeLegacy data (sigLen data) kind) ∧
    sigLen (List.replicate n 0) = 0 := by
  refine ⟨?_, ?_, ?_, sigLen_replicate_zero n⟩
  · intro h
    simp [deserialize_record, hsize, Ne.symm h]
  · intro h
    simp [deserialize_record, hsize, h]
  · intro hlast hlen
    have he : sigLen data = data.length := sigLen_eq_length data hlast
    have hne : sigLen data ≠ size := by omega
    exact ⟨he, hne, by simp [deserialize_record, hsize, Ne.symm hne]⟩

/-- Witness for C7 at the concrete input [1] (no trailing zeros, shorter
than the Eth size 20): the legacy branch is taken. -/
theorem legacy_path_dispatch_witness :
    get_record_size Record.Eth = some 20 ∧ sigLen [1] = 1 ∧ sigLen [1] ≠ 20 ∧
    deserialize_record edZero [1] Record.Eth pkZero =
      deserializeLegacy [1] (sigLen [1]) Record.Eth ∧
    sigLen (List.replicate 5 0) = 0 :=
  have h := legacy_path_dispatch edZero [1] Record.Eth pkZero 20 5 rfl
  have h3 := h.2.2.1 (fun b hb => by simp at hb; omega) (by decide)
  ⟨rfl, by decide, h3.2.1, h3.2.2, h.2.2.2⟩

lemma dropWhile_head_not (p : Char → Bool) (l : List Char) :
    ∀ a, (l.dropWhile p).head? = some a → p a = false := by
  induction l with
  | nil => intro a h; simp [List.dropWhile] at h
  | cons x xs ih =>
    intro a h
    by_cases hx : p x
    · rw [List.dropWhile_cons_of_pos hx] at h
      exact ih a h
    · rw [List.dropWhile_cons_of_neg hx] at h
      simp at h
      subst h
      simpa using hx

lemma trimEndZeros_spec (s : List Char) :
    s.take (trimEndZeros s).length = trimEndZeros s ∧
    (s.drop (trimEndZeros s).length).all (fun c => c == nulChar) = true ∧
    (trimEndZeros s).getLast? ≠ some nulChar := by
  have ht : trimEndZeros s = (s.reverse.dropWhile (fun c => c == nulChar)).reverse := rfl
  set p := fun c : Char => c == nulChar with hp
  set T := (s.reverse.dropWhile p).reverse with hTdef
  set pad := (s.reverse.takeWhile p).reverse with hpaddef
  have hs2 : s = T ++ pad := by
    rw [hTdef, hpaddef, ← List.reverse_append, List.takeWhile_append_dropWhile,
      List.reverse_reverse]
  refine ⟨?_, ?_, ?_⟩
  · rw [ht, hs2]
    exact List.take_left T pad
  · rw [ht, hs2, List.drop_left]
    simp only [List.all_eq_true]
    intro c hc
    rw [hpaddef, List.mem_reverse] at hc
    exact List.mem_takeWhile_imp hc
  · rw [ht, List.getLast?_reverse]
    intro h
    have := dropWhile_head_not p _ _ h
    simp [hp] at this

/-- Claim C8: for every text kind (expected size `none`),
`deserialize_record` returns the UTF-8 decoding with every trailing NUL
stripped (the returned string is the NUL-free prefix of the decoded
text), fails with the UTF-8 decode error on invalid UTF-8, and never
panics. -/
theorem text_kind_utf8 (E : Ed) (data d2 : List Nat) (kind : Record)
    (key : Pubkey) (s : List Char)
    (hk : get_record_size kind = none)
    (hs : utf8Decode data = some s)
    (h2 : utf8Decode d2 = none) :
    deserialize_record E data kind key = RRes.ok (trimEndZeros s) ∧
    s.take (trimEndZeros s).length = trimEndZeros s ∧
    (s.drop (trimEndZeros s).length).all (fun c => c == nulChar) = true ∧
    (trimEndZeros s).getLast? ≠ some nulChar ∧
    deserialize_record E d2 kind key = RRes.err SnsError.Utf8 ∧
    deserialize_record E d2 kind key ≠ RRes.panics ∧
    deserialize_record E data kind key ≠ RRes.panics := by
  have hspec := trimEndZeros_spec s
  have hok : deserialize_record E data kind key = RRes.ok (trimEndZeros s) := by
    simp [deserialize_record, hk, hs]
  have herr : deserialize_record E d2 kind key = RRes.err SnsError.Utf8 := by
    simp [deserialize_record, hk, h2]
  exact ⟨hok, hspec.1, hspec.2.1, hspec.2.2, herr, by simp [herr], by simp [hok]⟩

/-- Witness for C8 at concrete inputs: "hi" followed by two NULs decodes
to "hi"; the lone byte 255 is invalid UTF-8 and yields the UTF-8 error. -/
theorem text_kind_utf8_witness :
    get_record_size Record.TXT = none ∧
    utf8Decode [104, 105, 0, 0] = some ("hi".toList ++ [nulChar, nulChar]) ∧
    utf8Decode [255] = none ∧
    deserialize_record edZero [104, 105, 0, 0] Record.TXT pkZero =
      RRes.ok (trimEndZeros ("hi".toList ++ [nulChar, nulChar])) ∧
    deserialize_record edZero [255] Record.TXT pkZero = RRes.err SnsError.Utf8 ∧
    trimEndZeros ("hi".toList ++ [nulChar, nulChar]) = "hi".toList :=
  have h := text_kind_utf8 edZero [104, 105, 0, 0] [255] Record.TXT pkZero
    ("hi".toList ++ [nulChar, nulChar]) rfl (by decide) (by decide)
  ⟨rfl, by decide, by decide, h.1, h.2.2.2.2.1, by decide⟩

lemma deserialize_eq_legacy (E : Ed) (data : List Nat) (kind : Record)
    (key : Pubkey) (size : Nat)
    (hsize : get_record_size kind = some size) (h : sigLen data ≠ size) :
    deserialize_record E data kind key = deserializeLegacy data (sigLen data) kind := by
  simp [deserialize_record, hsize, Ne.symm h]

/-- Claim C4 (amended): on the legacy path with a valid-UTF-8 significant
prefix, a passing validation returns the text as-is, and a failing one
returns `InvalidReverse` except that the Eth/Bsc branch propagates
`InvalidRecordData` (prefix slicing) or the hex decoder error, and the
Injective branch propagates the bech32 decoder error; no other outcome
(in particular no panic and no UTF-8 error) is possible. -/
theorem legacy_error_channels (E : Ed) (data : List Nat) (kind : Record)
    (key : Pubkey) (size : Nat) (s : List Char)
    (hsize : get_record_size kind = some size)
    (hlegacy : sigLen data ≠ size)
    (hs : utf8Decode (data.take (sigLen data)) = some s) :
    deserialize_record E data kind key = RRes.ok s ∨
    deserialize_record E data kind key = RRes.err SnsError.InvalidReverse ∨
    ((kind = Record.Eth ∨ kind = Record.Bsc) ∧
      (deserialize_record E data kind key = RRes.err SnsError.Hex ∨
       deserialize_record E data kind key = RRes.err SnsError.InvalidRecordData)) ∨
    (kind = Record.Injective ∧
      deserialize_record E data kind key = RRes.err SnsError.Bech32) := by
  have hd : deserialize_record E data kind key = deserializeLegacy data (sigLen data) kind :=
    deserialize_eq_legacy E data kind key size hsize hlegacy
  rw [hd]
  unfold deserializeLegacy
  rw [hs]
  cases kind
  case Injective =>
    cases hb : bech32Decode s with
    | none => exact Or.inr (Or.inr (Or.inr ⟨rfl, by simp [hb]⟩))
    | some p =>
      obtain ⟨hrp, d, v⟩ := p
      by_cases hcond : hrp = "inj".toList ∧ d.length = 32
      · exact Or.inl (by simp [hb, hcond])
      · exact Or.inr (Or.inl (by simp only [hb]; rw [if_neg hcond]))
  case Eth =>
    cases h1 : strGetTo s 2 with
    | none => exact Or.inr (Or.inr (Or.inl ⟨Or.inl rfl, Or.inr (by simp [h1])⟩))
    | some pre =>
      cases h2 : strGetFrom s 2 with
      | none => exact Or.inr (Or.inr (Or.inl ⟨Or.inl rfl, Or.inr (by simp [h1, h2])⟩))
      | some hexPart =>
        cases h3 : hexDecode hexPart with
        | none => exact Or.inr (Or.inr (Or.inl ⟨Or.inl rfl, Or.inl (by simp [h1, h2, h3])⟩))
        | some decoded =>
          by_cases hcond : pre = "0x".toList ∧ decoded.length = 20
          · exact Or.inl (by simp [h1, h2, h3, hcond])
          · exact Or.inr (Or.inl (by simp only [h1, h2, h3]; rw [if_neg hcond]))
  case Bsc =>
    cases h1 : strGetTo s 2 with
    | none => exact Or.inr (Or.inr (Or.inl ⟨Or.inr rfl, Or.inr (by simp [h1])⟩))
    | some pre =>
      cases h2 : strGetFrom s 2 with
      | none => exact Or.inr (Or.inr (Or.inl ⟨Or.inr rfl, Or.inr (by simp [h1, h2])⟩))
      | some hexPart =>
        cases h3 : hexDecode hexPart with
        | none => exact Or.inr (Or.inr (Or.inl ⟨Or.inr rfl, Or.inl (by simp [h1, h2, h3])⟩))
        | some decoded =>
          by_cases hcond : pre = "0x".toList ∧ decoded.length = 20
          · exact Or.inl (by simp [h1, h2, h3, hcond])
          · exact Or.inr (Or.inl (by simp only [h1, h2, h3]; rw [if_neg hcond]))
  case A =>
    by_cases hip : ipv4Parse s = true
    · exact Or.inl (by simp [hip])
    · exact Or.inr (Or.inl (by simp [hip]))
  case AAAA =>
    by_cases hip : ipv6Parse s = true
    · exact Or.inl (by simp [hip])
    · exact Or.inr (Or.inl (by simp [hip]))
  all_goals exact Or.inr (Or.inl rfl)

/-- Claim C4 (counterexample): the legacy Eth text "0xgg" (significant
length 4, valid UTF-8) fails validation with the propagated hex decoder
error, not with `InvalidReverse`. -/
theorem legacy_error_channels_counterex :
    deserialize_record edZero [48, 120, 103, 103] Record.Eth pkZero =
      RRes.err SnsError.Hex ∧
    deserialize_record edZero [48, 120, 103, 103] Record.Eth pkZero ≠
      RRes.err SnsError.InvalidReverse := by
  decide

/-- Witness for C4 at the concrete legacy input "0xgg". -/
theorem legacy_error_channels_witness :
    get_record_size Record.Eth = some 20 ∧
    sigLen [48, 120, 103, 103] ≠ 20 ∧
    utf8Decode ([48, 120, 103, 103].take (sigLen [48, 120, 103, 103])) =
      some ("0xgg".toList) ∧
    (deserialize_record edZero [48, 120, 103, 103] Record.Eth pkZero =
        RRes.ok ("0xgg".toList) ∨
      deserialize_record edZero [48, 120, 103, 103] Record.Eth pkZero =
        RRes.err SnsError.InvalidReverse ∨
      ((Record.Eth = Record.Eth ∨ Record.Eth = Record.Bsc) ∧
        (deserialize_record edZero [48, 120, 103, 103] Record.Eth pkZero =
            RRes.err SnsError.Hex ∨
          deserialize_record edZero [48, 120, 103, 103] Record.Eth pkZero =
            RRes.err SnsError.InvalidRecordData)) ∨
      (Record.Eth = Record.Injective ∧
        deserialize_record edZero [48, 120, 103, 103] Record.Eth pkZero =
          RRes.err SnsError.Bech32)) :=
  ⟨rfl, by decide, by decide,
    legacy_error_channels edZero [48, 120, 103, 103] Record.Eth pkZero 20
      ("0xgg".toList) rfl (by decide) (by decide)⟩

lemma and31_mod (t : Nat) : t &&& 31 = t % 32 := by
  have h := Nat.and_pow_two_sub_one_eq_mod t 5
  norm_num at h
  exact h

lemma and31_small (x : Nat) (h : x < 32) : x &&& 31 = x := by
  rw [and31_mod]
  omega

lemma xor_left_comm (a b c : Nat) : a ^^^ (b ^^^ c) = b ^^^ (a ^^^ c) := by
  rw [← Nat.xor_assoc, Nat.xor_comm a b, Nat.xor_assoc]

lemma shiftRight_lt_pow (t a b : Nat) (h : t < 2 ^ (a + b)) : t >>> b < 2 ^ a := by
  rw [Nat.shiftRight_eq_div_pow]
  apply Nat.div_lt_of_lt_mul
  calc t < 2 ^ (a + b) := h
  _ = 2 ^ b * 2 ^ a := by rw [← pow_add, Nat.add_comm]

lemma xor_mul_pow_add (a b n : Nat) (hb : b < 2 ^ n) :
    (2 ^ n * a) ^^^ b = 2 ^ n * a + b := by
  apply Nat.eq_of_testBit_eq
  intro j
  have hmul : (2 ^ n * a) = a <<< n := by rw [Nat.shiftLeft_eq, mul_comm]
  rw [Nat.testBit_xor, hmul, Nat.testBit_shiftLeft, ← hmul,
    Nat.testBit_mul_pow_two_add a hb j]
  by_cases hj : j < n
  · have : ¬(j ≥ n) := by omega
    simp [hj, this]
  · have hge : j ≥ n := by omega
    have hbj : b.testBit j = false := by
      apply Nat.testBit_lt_two_pow
      calc b < 2 ^ n := hb
      _ ≤ 2 ^ j := Nat.pow_le_pow_right (by omega) hge
    simp [hj, hge, hbj]

lemma recompose (t : Nat) : ((t >>> 5) <<< 5) ^^^ (t &&& 31) = t := by
  rw [Nat.shiftRight_eq_div_pow, Nat.shiftLeft_eq, and31_mod, mul_comm]
  have h32 : (32 : Nat) = 2 ^ 5 := by norm_num
  rw [show (2 : Nat) ^ 5 = 32 from by norm_num]
  rw [show (32 : Nat) * (t / 32) = 2 ^ 5 * (t / 32) from by norm_num]
  rw [xor_mul_pow_add _ _ _ (by omega : t % 32 < 2 ^ 5)]
  omega

lemma and_xor_right (x y m : Nat) : (x ^^^ y) &&& m = (x &&& m) ^^^ (y &&& m) := by
  apply Nat.eq_of_testBit_eq
  intro i
  simp only [Nat.testBit_and, Nat.testBit_xor]
  cases x.testBit i <;> cases y.testBit i <;> cases m.testBit i <;> rfl

lemma shiftLeft_xor (x y n : Nat) : (x ^^^ y) <<< n = (x <<< n) ^^^ (y <<< n) := by
  apply Nat.eq_of_testBit_eq
  intro i
  simp only [Nat.testBit_shiftLeft, Nat.testBit_xor]
  cases h : decide (i ≥ n) <;> simp

lemma shiftRight_xor (x y n : Nat) : (x ^^^ y) >>> n = (x >>> n) ^^^ (y >>> n) := by
  apply Nat.eq_of_testBit_eq
  intro i
  simp [Nat.testBit_shiftRight, Nat.testBit_xor]

lemma if_testBit_xor (x y : Nat) (i : Nat) (g : Nat) :
    (if (x ^^^ y).testBit i then g else 0) =
      (if x.testBit i then g else 0) ^^^ (if y.testBit i then g else 0) := by
  rw [Nat.testBit_xor]
  cases x.testBit i <;> cases y.testBit i <;> simp [Nat.xor_self]

/-- The linear part of the checksum step (`polymod_step` with input 0). -/
def bech32A (c : Nat) : Nat := bech32Step c 0

lemma step_eq (c v : Nat) : bech32Step c v = bech32A c ^^^ v := by
  unfold bech32A bech32Step
  simp [Nat.xor_assoc, Nat.xor_comm, xor_left_comm]

lemma bech32A_linear (x y : Nat) : bech32A (x ^^^ y) = bech32A x ^^^ bech32A y := by
  unfold bech32A bech32Step
  rw [shiftRight_xor, and_xor_right, shiftLeft_xor,
    if_testBit_xor (x >>> 25) (y >>> 25) 0, if_testBit_xor (x >>> 25) (y >>> 25) 1,
    if_testBit_xor (x >>> 25) (y >>> 25) 2, if_testBit_xor (x >>> 25) (y >>> 25) 3,
    if_testBit_xor (x >>> 25) (y >>> 25) 4]
  simp [Nat.xor_assoc, Nat.xor_comm, xor_left_comm]

lemma bech32A_small (x : Nat) (h : x < 2 ^ 25) : bech32A x = x <<< 5 := by
  unfold bech32A bech32Step
  have h1 : x &&& 33554431 = x := by
    have := Nat.and_pow_two_sub_one_eq_mod x 25
    norm_num at this
    omega
  have h2 : x >>> 25 = 0 := by
    rw [Nat.shiftRight_eq_div_pow]
    exact Nat.div_eq_of_lt (by omega)
  rw [h1, h2]
  simp [Nat.zero_testBit]

lemma bech32A_lt (x : Nat) : bech32A x < 2 ^ 30 := by
  unfold bech32A bech32Step
  have hand := Nat.and_pow_two_sub_one_eq_mod x 25
  norm_num at hand
  have h1 : (x &&& 33554431) <<< 5 < 2 ^ 30 := by
    rw [Nat.shiftLeft_eq]
    have ha : x &&& 33554431 < 33554432 := by omega
    norm_num
    omega
  refine Nat.xor_lt_two_pow (Nat.xor_lt_two_pow (by simpa using h1) ?_) ?_
  · norm_num
  · refine Nat.xor_lt_two_pow ?_ (Nat.xor_lt_two_pow ?_ (Nat.xor_lt_two_pow ?_
      (Nat.xor_lt_two_pow ?_ ?_))) <;> split <;> norm_num

lemma step_absorb (y t m : Nat) (ht : t >>> (m + 5) < 2 ^ 25) :
    bech32Step (y ^^^ (t >>> (m + 5))) ((t >>> m) &&& 31) =
      bech32A y ^^^ (t >>> m) := by
  rw [step_eq, bech32A_linear, bech32A_small _ ht, Nat.xor_assoc]
  congr 1
  rw [show t >>> (m + 5) = (t >>> m) >>> 5 from Nat.shiftRight_add t m 5]
  exact recompose (t >>> m)

/-- The bech32 checksum equation: appending the six 5-bit chunks of
`polymod(values ++ 0^6) xor 1` to the state after `values` drives the
checksum to the Bech32 constant 1. -/
lemma bech32_checksum_verifies (P : Nat) :
    bech32PolymodFrom P
      [((bech32PolymodFrom P [0, 0, 0, 0, 0, 0] ^^^ 1) >>> 25) &&& 31,
       ((bech32PolymodFrom P [0, 0, 0, 0, 0, 0] ^^^ 1) >>> 20) &&& 31,
       ((bech32PolymodFrom P [0, 0, 0, 0, 0, 0] ^^^ 1) >>> 15) &&& 31,
       ((bech32PolymodFrom P [0, 0, 0, 0, 0, 0] ^^^ 1) >>> 10) &&& 31,
       ((bech32PolymodFrom P [0, 0, 0, 0, 0, 0] ^^^ 1) >>> 5) &&& 31,
       (bech32PolymodFrom P [0, 0, 0, 0, 0, 0] ^^^ 1) &&& 31] = 1 := by
  set T := bech32PolymodFrom P [0, 0, 0, 0, 0, 0] ^^^ 1 with hT
  have hA6 : bech32PolymodFrom P [0, 0, 0, 0, 0, 0] =
      bech32A (bech32A (bech32A (bech32A (bech32A (bech32A P))))) := by
    show List.foldl bech32Step P [0, 0, 0, 0, 0, 0] = _
    simp only [List.foldl]
    rfl
  have hTlt : T < 2 ^ 30 := by
    rw [hT, hA6]
    exact Nat.xor_lt_two_pow (bech32A_lt _) (by norm_num)
  have hsh : ∀ k, 5 ≤ k → T >>> k < 2 ^ 25 := by
    intro k hk
    have h1 : T >>> k ≤ T >>> 5 := by
      rw [Nat.shiftRight_eq_div_pow, Nat.shiftRight_eq_div_pow]
      exact Nat.div_le_div_left (Nat.pow_le_pow_right (by omega) hk) (by positivity)
    have h2 : T >>> 5 < 2 ^ 25 := shiftRight_lt_pow T 25 5 hTlt
    omega
  have hc0 : (T >>> 25) &&& 31 = T >>> 25 := by
    have : T >>> 25 < 2 ^ 5 := shiftRight_lt_pow T 5 25 hTlt
    exact and31_small _ (by omega)
  have hfold : bech32PolymodFrom P
      [(T >>> 25) &&& 31, (T >>> 20) &&& 31, (T >>> 15) &&& 31,
       (T >>> 10) &&& 31, (T >>> 5) &&& 31, T &&& 31] =
      bech32Step (bech32Step (bech32Step (bech32Step (bech32Step
        (bech32Step P ((T >>> 25) &&& 31)) ((T >>> 20) &&& 31)) ((T >>> 15) &&& 31))
        ((T >>> 10) &&& 31)) ((T >>> 5) &&& 31)) (T &&& 31) := by
    show List.foldl bech32Step P _ = _
    simp only [List.foldl]
  rw [hfold]
  have e1 : bech32Step P ((T >>> 25) &&& 31) = bech32A P ^^^ (T >>> 25) := by
    rw [hc0, step_eq]
  rw [e1]
  rw [show (25 : Nat) = 20 + 5 from rfl,
    step_absorb (bech32A P) T 20 (hsh 25 (by omega))]
  rw [show (20 : Nat) = 15 + 5 from rfl,
    step_absorb (bech32A (bech32A P)) T 15 (hsh 20 (by omega))]
  rw [show (15 : Nat) = 10 + 5 from rfl,
    step_absorb (bech32A (bech32A (bech32A P))) T 10 (hsh 15 (by omega))]
  rw [show (10 : Nat) = 5 + 5 from rfl,
    step_absorb (bech32A (bech32A (bech32A (bech32A P)))) T 5 (hsh 10 (by omega))]
  have hlast : T &&& 31 = (T >>> 0) &&& 31 := by rw [Nat.shiftRight_zero]
  rw [hlast, show (5 : Nat) = 0 + 5 from rfl,
    step_absorb (bech32A (bech32A (bech32A (bech32A (bech32A P))))) T 0
      (hsh 5 (by omega))]
  rw [Nat.shiftRight_zero, hT, hA6]
  rw [← Nat.xor_assoc, Nat.xor_self]
  simp

lemma bitsToNat_lt_aux (l : List Bool) :
    ∀ a : Nat, l.foldl (fun a b => 2 * a + (if b then 1 else 0)) a <
      (a + 1) * 2 ^ l.length := by
  induction l with
  | nil => intro a; simp
  | cons b t ih =>
    intro a
    simp only [List.foldl_cons, List.length_cons]
    calc t.foldl (fun a b => 2 * a + (if b then 1 else 0))
          (2 * a + (if b then 1 else 0)) <
        (2 * a + (if b then 1 else 0) + 1) * 2 ^ t.length := ih _
    _ ≤ (2 * (a + 1)) * 2 ^ t.length := by
        apply Nat.mul_le_mul_right
        split <;> omega
    _ = (a + 1) * 2 ^ (t.length + 1) := by ring
  
lemma bitsToNat_lt (l : List Bool) : bitsToNat l < 2 ^ l.length := by
  have h := bitsToNat_lt_aux l 0
  simpa [bitsToNat] using h

lemma chunks5_mem_len (l : List Bool) : ∀ c ∈ chunks5 l, c.length = 5 := by
  induction l using chunks5.induct <;> simp_all [chunks5]

lemma chunks5_len_dvd (l : List Bool) (h : 5 ∣ l.length) :
    (chunks5 l).length = l.length / 5 := by
  induction l using chunks5.induct with
  | case1 => simp [chunks5]
  | case2 a b c d e rest ih =>
    have h5 : 5 ∣ rest.length := by
      rcases h with ⟨k, hk⟩
      simp only [List.length_cons] at hk
      exact ⟨k - 1, by omega⟩
    simp only [chunks5, List.length_cons, ih h5]
    rcases h5 with ⟨k, hk⟩
    simp [hk]
    omega
  | case3 a => simp at h
  | case4 a b => simp at h; omega
  | case5 a b c => simp at h; omega
  | case6 a b c d => simp at h; omega

lemma natBits5_bitsToNat (a b c d e : Bool) :
    natBits 5 (bitsToNat [a, b, c, d, e]) = [a, b, c, d, e] := by
  cases a <;> cases b <;> cases c <;> cases d <;> cases e <;> decide

lemma bitsToNat_natBits8 : ∀ b : Nat, b < 256 → bitsToNat (natBits 8 b) = b := by
  decide

lemma unchunk5 (l : List Bool) (h : 5 ∣ l.length) :
    u5sToBits ((chunks5 l).map bitsToNat) = l := by
  induction l using chunks5.induct with
  | case1 => rfl
  | case2 a b c d e rest ih =>
    have h5 : 5 ∣ rest.length := by
      rcases h with ⟨k, hk⟩
      simp only [List.length_cons] at hk
      exact ⟨k - 1, by omega⟩
    simp only [chunks5, List.map_cons]
    show natBits 5 (bitsToNat [a, b, c, d, e]) ++
      u5sToBits ((chunks5 rest).map bitsToNat) = _
    rw [natBits5_bitsToNat, ih h5]
    rfl
  | case3 a => simp at h
  | case4 a b => simp at h; omega
  | case5 a b c => simp at h; omega
  | case6 a b c d => simp at h; omega

lemma bytesToBits_len (bs : List Nat) : (bytesToBits bs).length = 8 * bs.length := by
  induction bs with
  | nil => rfl
  | cons b t ih =>
    show (natBits 8 b ++ bytesToBits t).length = _
    rw [List.length_append, ih]
    simp [natBits]
    omega

lemma chunks8_bytesToBits (bs : List Nat) :
    chunks8 (bytesToBits bs) = bs.map (natBits 8) := by
  induction bs with
  | nil => rfl
  | cons b t ih =>
    show chunks8 (natBits 8 b ++ bytesToBits t) = natBits 8 b :: t.map (natBits 8)
    have h8 : natBits 8 b = [b.testBit 7, b.testBit 6, b.testBit 5, b.testBit 4,
        b.testBit 3, b.testBit 2, b.testBit 1, b.testBit 0] := rfl
    rw [h8]
    show chunks8 (_ :: _ :: _ :: _ :: _ :: _ :: _ :: _ :: bytesToBits t) = _
    rw [chunks8, ih, ← h8]

lemma toBase32_len (bs : List Nat) (h : bs.length = 20) :
    (toBase32 bs).length = 32 := by
  unfold toBase32
  rw [List.length_map, chunks5_len_dvd, bytesToBits_len, h]
  rw [bytesToBits_len, h]
  norm_num

lemma toBase32_lt32 (bs : List Nat) : ∀ x ∈ toBase32 bs, x < 32 := by
  intro x hx
  unfold toBase32 at hx
  obtain ⟨c, hc, rfl⟩ := List.mem_map.mp hx
  have h5 : c.length = 5 := chunks5_mem_len _ c hc
  have := bitsToNat_lt c
  rw [h5] at this
  omega

lemma fromBase32_toBase32 (bs : List Nat) (h20 : bs.length = 20)
    (hb : ∀ b ∈ bs, b < 256) : fromBase32Exact (toBase32 bs) = bs := by
  unfold fromBase32Exact toBase32
  rw [unchunk5 (bytesToBits bs) (by rw [bytesToBits_len, h20]; norm_num),
    chunks8_bytesToBits, List.map_map]
  have : ∀ l : List Nat, (∀ b ∈ l, b < 256) →
      l.map (bitsToNat ∘ natBits 8) = l := by
    intro l hl
    induction l with
    | nil => rfl
    | cons b t ih =>
      simp only [List.map_cons, Function.comp]
      rw [bitsToNat_natBits8 b (hl b (by simp)), ih (fun x hx => hl x (by simp [hx]))]
  exact this bs hb

lemma charsetGet_mem (d : Nat) : charsetGet d ∈ CHARSET := by
  unfold charsetGet List.getD
  cases hget : CHARSET.get? d with
  | none => simp [hget]; decide
  | some c => simp [hget]; exact List.get?_mem hget

lemma charset_no_upper : ∀ c ∈ CHARSET, c.isUpper = false := by decide

lemma charset_ne_one : '1' ∉ CHARSET := by decide

lemma charset_ascii : ∀ c ∈ CHARSET, c.toNat < 128 ∧ c.toNat ≠ 0 := by decide

lemma charsetRev_get : ∀ d : Nat, d < 32 → charsetRev (charsetGet d) = some d := by
  decide

lemma rsplitLast_not_mem (c : Char) (l : List Char) (h : c ∉ l) :
    rsplitLast c l = none := by
  induction l with
  | nil => rfl
  | cons a t ih =>
    have ha : (a == c) = false := by
      simp only [beq_eq_false_iff_ne, ne_eq]
      intro he
      exact h (he ▸ List.mem_cons_self a t)
    have ht : c ∉ t := fun hm => h (List.mem_cons_of_mem a hm)
    unfold rsplitLast
    rw [ih ht, ha]
    simp

lemma rsplitLast_append (c : Char) (pre post : List Char) (h : c ∉ post) :
    rsplitLast c (pre ++ c :: post) = some (pre, post) := by
  induction pre with
  | nil =>
    show rsplitLast c (c :: post) = _
    unfold rsplitLast
    rw [rsplitLast_not_mem c post h]
    simp
  | cons a t ih =>
    show rsplitLast c (a :: (t ++ c :: post)) = _
    unfold rsplitLast
    rw [ih]

lemma mapM_charsetRev (pl : List Nat) (h : ∀ d ∈ pl, d < 32) :
    (pl.map charsetGet).mapM charsetRev = some pl := by
  induction pl with
  | nil => rfl
  | cons d t ih =>
    simp only [List.map_cons, List.mapM_cons]
    rw [charsetRev_get d (h d (by simp)), ih (fun x hx => h x (by simp [hx]))]
    rfl

lemma inj_toLower : ("inj".toList).map Char.toLower = "inj".toList := by decide

lemma encode_inj (data : List Nat) :
    bech32Encode ("inj".toList) data Bech32Variant.bech32 =
      some ("inj".toList ++ '1' :: ((data ++
        bech32CreateChecksum ("inj".toList) data Bech32Variant.bech32).map
          charsetGet)) := by
  unfold bech32Encode
  rw [if_pos (by decide)]
  rw [inj_toLower, List.map_append]

lemma checksum_lt32 (hrp : List Char) (data : List Nat) (v : Bech32Variant) :
    ∀ d ∈ bech32CreateChecksum hrp data v, d < 32 := by
  intro d hd
  unfold bech32CreateChecksum at hd
  simp only [List.mem_cons, List.not_mem_nil, or_false] at hd
  rcases hd with h | h | h | h | h | h <;> subst h <;> rw [and31_mod] <;> omega

lemma checksum_len (hrp : List Char) (data : List Nat) (v : Bech32Variant) :
    (bech32CreateChecksum hrp data v).length = 6 := by
  unfold bech32CreateChecksum
  rfl

lemma decode_encode_inj (data : List Nat) (hm : ∀ d ∈ data, d < 32) :
    bech32Decode ("inj".toList ++ '1' ::
        ((data ++ bech32CreateChecksum ("inj".toList) data Bech32Variant.bech32).map
          charsetGet)) =
      some ("inj".toList, data, Bech32Variant.bech32) := by
  set cs := bech32CreateChecksum ("inj".toList) data Bech32Variant.bech32 with hcs
  have hall_lt : ∀ d ∈ data ++ cs, d < 32 := by
    intro d hd
    rcases List.mem_append.mp hd with h | h
    · exact hm d h
    · exact checksum_lt32 _ _ _ d h
  have hnoupper :
      (("inj".toList ++ '1' :: ((data ++ cs).map charsetGet)).any Char.isUpper) = false := by
    rw [List.any_eq_false]
    intro c hc
    simp only [List.mem_append, List.mem_cons] at hc
    rcases hc with h | h | h
    · have : c = 'i' ∨ c = 'n' ∨ c = 'j' := by simpa using h
      rcases this with rfl | rfl | rfl <;> decide
    · subst h; decide
    · obtain ⟨d, _, rfl⟩ := List.mem_map.mp h
      simp [charset_no_upper _ (charsetGet_mem d)]
  have hsplit : rsplitLast '1' ("inj".toList ++ '1' :: ((data ++ cs).map charsetGet)) =
      some ("inj".toList, (data ++ cs).map charsetGet) := by
    apply rsplitLast_append
    intro hmem
    obtain ⟨d, _, he⟩ := List.mem_map.mp hmem
    exact charset_ne_one (he ▸ charsetGet_mem d)
  have hmapM : ((data ++ cs).map charsetGet).mapM charsetRev = some (data ++ cs) :=
    mapM_charsetRev _ hall_lt
  have hlen6 : ¬((data ++ cs).length < 6) := by
    rw [List.length_append, hcs, checksum_len]
    omega
  have htake : (data ++ cs).take ((data ++ cs).length - 6) = data := by
    have h1 : (data ++ cs).length - 6 = data.length := by
      rw [List.length_append, hcs, checksum_len]
      omega
    rw [h1, List.take_left]
  have hsplit2 : ∀ (c : Nat) (l1 l2 : List Nat),
      bech32PolymodFrom c (l1 ++ l2) = bech32PolymodFrom (bech32PolymodFrom c l1) l2 := by
    intro c l1 l2
    unfold bech32PolymodFrom
    exact List.foldl_append bech32Step c l1 l2
  have hpm : bech32Polymod (bech32HrpExpand ("inj".toList) ++ (data ++ cs)) = 1 := by
    unfold bech32Polymod
    rw [← List.append_assoc, hsplit2]
    rw [hcs]
    simp only [bech32CreateChecksum, bech32Const, bech32Polymod]
    rw [hsplit2 1 (bech32HrpExpand ("inj".toList) ++ data) [0, 0, 0, 0, 0, 0]]
    exact bech32_checksum_verifies
      (bech32PolymodFrom 1 (bech32HrpExpand ("inj".toList) ++ data))
  unfold bech32Decode
  simp only [hnoupper, Bool.false_and, Bool.false_eq_true, if_false]
  simp only [hsplit]
  rw [if_pos (by decide :
    ((decide (1 ≤ ("inj".toList).length) && decide (("inj".toList).length ≤ 83)) &&
      ("inj".toList).all (fun c => decide (33 ≤ c.toNat) && decide (c.toNat ≤ 126))) = true)]
  simp only [inj_toLower, hmapM]
  rw [if_neg hlen6]
  rw [if_pos hpm]
  rw [htake]

lemma utf8Run_ascii : ∀ (f : Nat) (s : List Char), s.length ≤ f →
    (∀ c ∈ s, c.toNat < 128) → utf8Run f (s.map Char.toNat) = some s := by
  intro f
  induction f with
  | zero =>
    intro s hf _
    cases s with
    | nil => rfl
    | cons c t => simp at hf
  | succ k ih =>
    intro s hf h
    cases s with
    | nil => rfl
    | cons c t =>
      have hc : c.toNat < 128 := h c (by simp)
      simp only [List.map_cons]
      rw [utf8Run]
      have h1 : utf8DecodeOne c.toNat (t.map Char.toNat) =
          some (Char.ofNat c.toNat, t.map Char.toNat) := by
        unfold utf8DecodeOne
        rw [if_pos (by omega : c.toNat ≤ 127)]
      simp only [h1]
      rw [ih t (by simp at hf; omega) (fun x hx => h x (by simp [hx]))]
      simp [Char.ofNat_toNat]

lemma utf8Decode_ascii (s : List Char) (h : ∀ c ∈ s, c.toNat < 128) :
    utf8Decode (s.map Char.toNat) = some s := by
  unfold utf8Decode
  exact utf8Run_ascii _ s (by simp) h

/-- The bech32 text produced by the native Injective encoding of `bs`. -/
def bech32InjString (bs : List Nat) : List Char :=
  "inj".toList ++ '1' :: ((toBase32 bs ++
    bech32CreateChecksum ("inj".toList) (toBase32 bs) Bech32Variant.bech32).map
      charsetGet)

lemma bech32InjString_chars (bs : List Nat) :
    ∀ c ∈ bech32InjString bs, c.toNat < 128 ∧ c.toNat ≠ 0 := by
  intro c hc
  unfold bech32InjString at hc
  simp only [List.mem_append, List.mem_cons] at hc
  rcases hc with h | h | h
  · have : c = 'i' ∨ c = 'n' ∨ c = 'j' := by simpa using h
    rcases this with rfl | rfl | rfl <;> exact ⟨by decide, by decide⟩
  · subst h; exact ⟨by decide, by decide⟩
  · obtain ⟨d, _, rfl⟩ := List.mem_map.mp h
    exact charset_ascii _ (charsetGet_mem d)

lemma bech32InjString_len (bs : List Nat) (h : bs.length = 20) :
    (bech32InjString bs).length = 42 := by
  unfold bech32InjString
  rw [List.length_append, List.length_cons, List.length_map, List.length_append,
    toBase32_len bs h, checksum_len]
  rfl

/-- Claim C6: on the legacy path the Injective kind accepts a text and
returns it as-is exactly when it bech32-decodes with the human-readable
prefix "inj" and a payload of 32 five-bit groups (i.e. 20 bytes: the
groups regroup exactly to 20 bytes); moreover bech32-encoding any
20-byte array with prefix "inj" — the native-path encoding — yields a
text that this legacy validation accepts, whose decoded payload
regroups to the original 20 bytes. -/
theorem injective_legacy_bech32 (E : Ed) (key : Pubkey) (data : List Nat)
    (text : List Char) (bs : List Nat)
    (hlegacy : sigLen data ≠ 20)
    (htext : utf8Decode (data.take (sigLen data)) = some text)
    (hlen : bs.length = 20) (hbs : ∀ b ∈ bs, b < 256) :
    (deserialize_record E data Record.Injective key = RRes.ok text ↔
      (bech32Decode text).elim False
        (fun p => p.1 = "inj".toList ∧ p.2.1.length = 32)) ∧
    (toBase32 bs).length = 32 ∧
    fromBase32Exact (toBase32 bs) = bs ∧
    bech32Encode ("inj".toList) (toBase32 bs) Bech32Variant.bech32 =
      some (bech32InjString bs) ∧
    bech32Decode (bech32InjString bs) =
      some ("inj".toList, toBase32 bs, Bech32Variant.bech32) ∧
    deserialize_record E ((bech32InjString bs).map Char.toNat) Record.Injective key =
      RRes.ok (bech32InjString bs) := by
  have hdecE : bech32Decode (bech32InjString bs) =
      some ("inj".toList, toBase32 bs, Bech32Variant.bech32) :=
    decode_encode_inj (toBase32 bs) (toBase32_lt32 bs)
  refine ⟨?_, toBase32_len bs hlen, fromBase32_toBase32 bs hlen hbs,
    encode_inj (toBase32 bs), hdecE, ?_⟩
  · have hd : deserialize_record E data Record.Injective key =
        deserializeLegacy data (sigLen data) Record.Injective :=
      deserialize_eq_legacy E data Record.Injective key 20 rfl hlegacy
    rw [hd]
    unfold deserializeLegacy
    simp only [htext]
    cases hb : bech32Decode text with
    | none => simp [hb]
    | some p =>
      obtain ⟨hrp, d, v⟩ := p
      simp only [hb, Option.elim]
      by_cases hcond : hrp = "inj".toList ∧ d.length = 32
      · simp [hcond]
      · rw [if_neg hcond]
        constructor
        · intro h
          simp at h
        · intro h
          exact absurd h hcond
  · set e := bech32InjString bs with he
    set data2 := e.map Char.toNat with hdata2
    have hascii : ∀ c ∈ e, c.toNat < 128 := fun c hc =>
      (bech32InjString_chars bs c hc).1
    have hnz : ∀ c ∈ e, c.toNat ≠ 0 := fun c hc =>
      (bech32InjString_chars bs c hc).2
    have hlast : ∀ b, data2.getLast? = some b → b ≠ 0 := by
      intro b hbl
      have hmem : b ∈ data2 := List.mem_of_getLast?_eq_some hbl
      rw [hdata2] at hmem
      obtain ⟨c, hc, rfl⟩ := List.mem_map.mp hmem
      exact hnz c hc
    have hsig : sigLen data2 = data2.length := sigLen_eq_length data2 hlast
    have hlen2 : data2.length = 42 := by
      rw [hdata2, List.length_map]
      exact bech32InjString_len bs hlen
    have hne : sigLen data2 ≠ 20 := by omega
    have hd : deserialize_record E data2 Record.Injective key =
        deserializeLegacy data2 (sigLen data2) Record.Injective :=
      deserialize_eq_legacy E data2 Record.Injective key 20 rfl hne
    rw [hd]
    unfold deserializeLegacy
    rw [hsig, List.take_length]
    have hutf : utf8Decode data2 = some e := utf8Decode_ascii e hascii
    simp only [hutf, hdecE]
    simp [toBase32_len bs hlen]

/-- Witness for C6 at the concrete 20-byte array of zeros: the encoded
text is accepted by the legacy validation and its payload regroups to the
original bytes. -/
theorem injective_legacy_bech32_witness :
    sigLen ((bech32InjString (List.replicate 20 0)).map Char.toNat) ≠ 20 ∧
    utf8Decode (((bech32InjString (List.replicate 20 0)).map Char.toNat).take
      (sigLen ((bech32InjString (List.replicate 20 0)).map Char.toNat))) =
      some (bech32InjString (List.replicate 20 0)) ∧
    (List.replicate 20 (0 : Nat)).length = 20 ∧
    (∀ b ∈ List.replicate 20 (0 : Nat), b < 256) ∧
    ((deserialize_record edZero ((bech32InjString (List.replicate 20 0)).map Char.toNat)
        Record.Injective pkZero = RRes.ok (bech32InjString (List.replicate 20 0)) ↔
      (bech32Decode (bech32InjString (List.replicate 20 0))).elim False
        (fun p => p.1 = "inj".toList ∧ p.2.1.length = 32)) ∧
    (toBase32 (List.replicate 20 0)).length = 32 ∧
    fromBase32Exact (toBase32 (List.replicate 20 0)) = List.replicate 20 0 ∧
    bech32Encode ("inj".toList) (toBase32 (List.replicate 20 0)) Bech32Variant.bech32 =
      some (bech32InjString (List.replicate 20 0)) ∧
    bech32Decode (bech32InjString (List.replicate 20 0)) =
      some ("inj".toList, toBase32 (List.replicate 20 0), Bech32Variant.bech32) ∧
    deserialize_record edZero
        ((bech32InjString (List.replicate 20 0)).map Char.toNat) Record.Injective
        pkZero =
      RRes.ok (bech32InjString (List.replicate 20 0))) :=
  ⟨by decide, by decide, by decide, by decide,
    injective_legacy_bech32 edZero pkZero
      ((bech32InjString (List.replicate 20 0)).map Char.toNat)
      (bech32InjString (List.replicate 20 0)) (List.replicate 20 0)
      (by decide) (by decide) (by decide) (by decide)⟩
